import Mathlib

/-!
Shallow embedding of the FHEVoting system (Solidity contract
`src/contracts/FHEVoting.sol` and TypeScript client `src/lib/fhevm.ts`).

The contract is modelled as a pure state machine: each external function
becomes a Lean function from the pre-state (plus `msg.sender` and
`block.timestamp`) to `Except VError (VState × List Event)`.  An `.error`
result corresponds to a reverted transaction: the EVM rolls back every
write, so the pre-state persists (captured by `execTx`).  Encrypted
`euint32` values are opaque handles with a free homomorphic-addition
algebra (`Ct`); the external proof verification performed by
`FHE.fromExternal` is an external capability, modelled by the boolean
verdict `proofOk` supplied with the call.  Addresses and uint256 values
are `Nat`; the one place where uint256 overflow is reachable from a single
call's inputs, `endTime = block.timestamp + votingDuration`, carries the
explicit checked-arithmetic bound `< 2^256` (Solidity 0.8 reverts on
overflow).  The `proposalCount`/`totalVotes` increments are kept as plain
`Nat` successors: wrapping them would need 2^256 prior successful
transactions, which no execution reaches.
-/

namespace FHEVoting

abbrev Address := Nat

/-- Modulus of uint256 arithmetic. -/
def UINT256_MOD : Nat := 2 ^ 256

/-- Opaque encrypted-uint32 handles (`euint32`).  `defaultCt` is the
all-zero handle of an untouched storage slot, `encZero` is
`FHE.asEuint32(0)`, `add` is homomorphic addition `FHE.add`, and
`ext h p` is the value obtained by `FHE.fromExternal` from external
handle `h` and input proof `p`. -/
inductive Ct where
  | defaultCt : Ct
  | encZero : Ct
  | add : Ct → Ct → Ct
  | ext : Nat → List Nat → Ct
deriving DecidableEq, Repr

/-- Revert reasons of the contract, one per `require` string (plus the
checked-arithmetic panic of Solidity 0.8). -/
inductive VError where
  | notOwner
  | notAdmin
  | notAuthorizedVoter
  | invalidProposalId
  | proposalNotActive
  | votingPeriodNotActive
  | alreadyVoted
  | invalidOption
  | inputProofInvalid
  | tooFewOptions
  | tooManyOptions
  | invalidDuration
  | arithmeticOverflow
  | votingStillActive
  | resultsAlreadyRevealed
  | resultsLengthMismatch
deriving DecidableEq, Repr

/-- Events emitted by the contract. -/
inductive Event where
  | proposalCreated (proposalId : Nat) (title : String) (creator : Address)
      (startTime endTime : Nat)
  | voteCast (proposalId : Nat) (voter : Address) (totalVotes : Nat)
  | resultsRevealed (proposalId : Nat) (results : List Nat)
  | voterAuthorized (voter : Address) (admin : Address)
  | adminAdded (admin : Address) (addedBy : Address)
deriving DecidableEq, Repr

/-- The `Proposal` storage struct.  The Solidity mappings
`encryptedVoteCounts` and `hasVoted` become total functions with the
EVM's zero default. -/
structure Proposal where
  id : Nat
  title : String
  description : String
  options : List String
  startTime : Nat
  endTime : Nat
  totalVotes : Nat
  encryptedVoteCounts : Nat → Ct
  hasVoted : Address → Bool
  resultsRevealed : Bool
  revealedResults : List Nat
  creator : Address
  active : Bool

/-- Zero value of a `Proposal` storage slot that was never written. -/
def defaultProposal : Proposal :=
  { id := 0, title := "", description := "", options := []
    startTime := 0, endTime := 0, totalVotes := 0
    encryptedVoteCounts := fun _ => Ct.defaultCt
    hasVoted := fun _ => false
    resultsRevealed := false, revealedResults := []
    creator := 0, active := false }

/-- Contract-level storage of `FHEVoting`. -/
structure VState where
  proposals : Nat → Proposal
  authorizedVoters : Address → Bool
  admins : Address → Bool
  proposalCount : Nat
  owner : Address

/-- Point update of a Solidity mapping. -/
def updFn {α : Type} (m : Nat → α) (k : Nat) (v : α) : Nat → α :=
  fun k2 => if k2 = k then v else m k2

/-- The constructor: deployer becomes owner, admin and authorized voter. -/
def initState (deployer : Address) : VState :=
  { proposals := fun _ => defaultProposal
    authorizedVoters := updFn (fun _ => false) deployer true
    admins := updFn (fun _ => false) deployer true
    proposalCount := 0
    owner := deployer }

/-- The `onlyAdmin` modifier condition: `admins[msg.sender] || msg.sender == owner`. -/
def isAdminSender (s : VState) (sender : Address) : Prop :=
  s.admins sender = true ∨ sender = s.owner

instance (s : VState) (sender : Address) : Decidable (isAdminSender s sender) := by
  unfold isAdminSender; infer_instance

/-- `addAdmin` (onlyOwner). -/
def addAdmin (s : VState) (sender admin : Address) :
    Except VError (VState × List Event) :=
  if sender = s.owner then
    .ok ({ s with admins := updFn s.admins admin true },
         [Event.adminAdded admin sender])
  else .error .notOwner

/-- `authorizeVoter` (onlyAdmin).  Note: the event is emitted on every
call, including calls on addresses that are already authorized. -/
def authorizeVoter (s : VState) (sender voter : Address) :
    Except VError (VState × List Event) :=
  if isAdminSender s sender then
    .ok ({ s with authorizedVoters := updFn s.authorizedVoters voter true },
         [Event.voterAuthorized voter sender])
  else .error .notAdmin

/-- One iteration of the `authorizeVoters` loop. -/
def authStep (sender : Address) (acc : VState × List Event) (v : Address) :
    VState × List Event :=
  ({ acc.1 with authorizedVoters := updFn acc.1.authorizedVoters v true },
   acc.2 ++ [Event.voterAuthorized v sender])

/-- `authorizeVoters` (onlyAdmin): loop of single authorizations. -/
def authorizeVoters (s : VState) (sender : Address) (voters : List Address) :
    Except VError (VState × List Event) :=
  if isAdminSender s sender then .ok (voters.foldl (authStep sender) (s, []))
  else .error .notAdmin

/-- Zero-initialization of the per-option encrypted counters:
`encryptedVoteCounts[i] = FHE.asEuint32(0)` for `i < n`. -/
def initCounts (m : Nat → Ct) (n : Nat) : Nat → Ct :=
  fun i => if i < n then Ct.encZero else m i

/-- The writes `createProposal` performs in the storage slot
`proposals[proposalCount]`.  It pushes onto the slot's existing
`options` array and leaves `totalVotes`, `hasVoted`, `resultsRevealed`
and `revealedResults` untouched (they are still at their defaults in
every reachable pre-state, since the slot was never used). -/
def createUpd (p : Proposal) (pid : Nat) (sender : Address) (now : Nat)
    (title description : String) (options : List String) (votingDuration : Nat) :
    Proposal :=
  { p with
    id := pid, title := title, description := description
    options := p.options ++ options
    startTime := now, endTime := now + votingDuration
    creator := sender, active := true
    encryptedVoteCounts := initCounts p.encryptedVoteCounts options.length }

/-- `createProposal` (onlyAdmin); returns the new id.
`endTime = now + votingDuration` is checked uint256 arithmetic and
reverts on overflow (Solidity 0.8 panic). -/
def createProposal (s : VState) (sender : Address) (now : Nat)
    (title description : String) (options : List String) (votingDuration : Nat) :
    Except VError (VState × List Event × Nat) :=
  if isAdminSender s sender then
    if options.length ≥ 2 then
      if options.length ≤ 10 then
        if votingDuration > 0 then
          if now + votingDuration < UINT256_MOD then
            let pid := s.proposalCount
            let p2 := createUpd (s.proposals pid) pid sender now title description
                options votingDuration
            .ok ({ s with proposals := updFn s.proposals pid p2
                          proposalCount := pid + 1 },
                 [Event.proposalCreated pid title sender now (now + votingDuration)],
                 pid)
          else .error .arithmeticOverflow
        else .error .invalidDuration
      else .error .tooManyOptions
    else .error .tooFewOptions
  else .error .notAdmin

/-- The writes `castVote` performs on the proposal: homomorphic add into
the chosen option's counter, mark the voter, bump `totalVotes`. -/
def voteUpd (p : Proposal) (sender : Address) (optIdx encVote : Nat)
    (inputProof : List Nat) : Proposal :=
  { p with
    encryptedVoteCounts :=
      updFn p.encryptedVoteCounts optIdx
        (Ct.add (p.encryptedVoteCounts optIdx) (Ct.ext encVote inputProof))
    hasVoted := updFn p.hasVoted sender true
    totalVotes := p.totalVotes + 1 }

/-- `castVote` (onlyAuthorizedVoter, validProposal, votingPeriod).
`proofOk` is the verdict of the external proof-verification capability
consulted by `FHE.fromExternal`. -/
def castVote (s : VState) (sender : Address) (now : Nat) (pid optIdx : Nat)
    (encVote : Nat) (inputProof : List Nat) (proofOk : Bool) :
    Except VError (VState × List Event) :=
  if s.authorizedVoters sender then
    if pid < s.proposalCount then
      if (s.proposals pid).active then
        if now ≥ (s.proposals pid).startTime ∧ now ≤ (s.proposals pid).endTime then
          if (s.proposals pid).hasVoted sender then .error .alreadyVoted
          else if optIdx < (s.proposals pid).options.length then
            if proofOk then
              .ok ({ s with proposals :=
                              updFn s.proposals pid
                                (voteUpd (s.proposals pid) sender optIdx encVote inputProof) },
                   [Event.voteCast pid sender ((s.proposals pid).totalVotes + 1)])
            else .error .inputProofInvalid
          else .error .invalidOption
        else .error .votingPeriodNotActive
      else .error .proposalNotActive
    else .error .invalidProposalId
  else .error .notAuthorizedVoter

/-- The writes `setResults` performs on the proposal. -/
def revealUpd (p : Proposal) (results : List Nat) : Proposal :=
  { p with revealedResults := results, resultsRevealed := true }

/-- `setResults` (onlyAdmin, validProposal): publishes the plaintext
results after the voting period ended. -/
def setResults (s : VState) (sender : Address) (now : Nat) (pid : Nat)
    (results : List Nat) : Except VError (VState × List Event) :=
  if isAdminSender s sender then
    if pid < s.proposalCount then
      if (s.proposals pid).active then
        if now > (s.proposals pid).endTime then
          if (s.proposals pid).resultsRevealed then .error .resultsAlreadyRevealed
          else if results.length = (s.proposals pid).options.length then
            .ok ({ s with proposals :=
                     updFn s.proposals pid (revealUpd (s.proposals pid) results) },
                 [Event.resultsRevealed pid results])
          else .error .resultsLengthMismatch
        else .error .votingStillActive
      else .error .proposalNotActive
    else .error .invalidProposalId
  else .error .notAdmin

/-- `requestDecryption` (onlyAdmin, validProposal): only re-grants ACL
access (`FHE.allowThis`) to the option ciphertexts; no storage field of
the model changes and no event is emitted. -/
def requestDecryption (s : VState) (sender : Address) (now : Nat) (pid : Nat) :
    Except VError (VState × List Event) :=
  if isAdminSender s sender then
    if pid < s.proposalCount then
      if (s.proposals pid).active then
        if now > (s.proposals pid).endTime then
          if (s.proposals pid).resultsRevealed then .error .resultsAlreadyRevealed
          else .ok (s, [])
        else .error .votingStillActive
      else .error .proposalNotActive
    else .error .invalidProposalId
  else .error .notAdmin

/-- `deactivateProposal` (onlyAdmin, validProposal). -/
def deactivateProposal (s : VState) (sender : Address) (pid : Nat) :
    Except VError (VState × List Event) :=
  if isAdminSender s sender then
    if pid < s.proposalCount then
      if (s.proposals pid).active then
        .ok ({ s with proposals :=
                 updFn s.proposals pid { s.proposals pid with active := false } }, [])
      else .error .proposalNotActive
    else .error .invalidProposalId
  else .error .notAdmin

/-- One mutating external call with its parameters (the read-only views
do not change state). -/
inductive Op where
  | addAdmin (sender admin : Address)
  | authorizeVoter (sender voter : Address)
  | authorizeVoters (sender : Address) (voters : List Address)
  | createProposal (sender : Address) (now : Nat) (title description : String)
      (options : List String) (votingDuration : Nat)
  | castVote (sender : Address) (now : Nat) (pid optIdx : Nat)
      (encVote : Nat) (inputProof : List Nat) (proofOk : Bool)
  | setResults (sender : Address) (now : Nat) (pid : Nat) (results : List Nat)
  | requestDecryption (sender : Address) (now : Nat) (pid : Nat)
  | deactivateProposal (sender : Address) (pid : Nat)

/-- Forgets the returned proposal id, keeping state and events. -/
def dropRet (r : Except VError (VState × List Event × Nat)) :
    Except VError (VState × List Event) :=
  match r with
  | .ok r => .ok (r.1, r.2.1)
  | .error e => .error e

/-- Dispatch of an operation to the corresponding contract function. -/
def applyOp (op : Op) (s : VState) : Except VError (VState × List Event) :=
  match op with
  | .addAdmin sender admin => addAdmin s sender admin
  | .authorizeVoter sender voter => authorizeVoter s sender voter
  | .authorizeVoters sender voters => authorizeVoters s sender voters
  | .createProposal sender now title description options votingDuration =>
      dropRet (createProposal s sender now title description options votingDuration)
  | .castVote sender now pid optIdx encVote inputProof proofOk =>
      castVote s sender now pid optIdx encVote inputProof proofOk
  | .setResults sender now pid results => setResults s sender now pid results
  | .requestDecryption sender now pid => requestDecryption s sender now pid
  | .deactivateProposal sender pid => deactivateProposal s sender pid

/-- Transaction semantics: a reverted call leaves the pre-state in place
(and emits nothing); a successful call installs the post-state. -/
def execTx (op : Op) (s : VState) : VState × List Event × Option VError :=
  match applyOp op s with
  | .ok (s2, evs) => (s2, evs, none)
  | .error e => (s, [], some e)

/-- State after running a list of transactions (each one atomic, failed
ones rolled back). -/
def execList (s : VState) (ops : List Op) : VState :=
  match ops with
  | [] => s
  | op :: rest => execList (execTx op s).1 rest

/-- States reachable from deployment by any sequence of calls. -/
inductive Reachable : VState → Prop where
  | init (deployer : Address) : Reachable (initState deployer)
  | step (op : Op) (s s2 : VState) (evs : List Event) :
      Reachable s → applyOp op s = .ok (s2, evs) → Reachable s2

/-!
Concrete scenario states, used to evaluate the theorems on explicit
inputs: deployment by address 0, a two-option proposal open in `[0, 100]`,
a first ballot by the deployer, an extra authorized voter, a deactivated
copy, and a revealed copy.
-/

/-- State right after deployment by address 0. -/
def s0 : VState := initState 0

/-- `s0` after `createProposal("Title", "Desc", ["Yes", "No"], 100)` at time 0. -/
def sProp : VState :=
  (execTx (Op.createProposal 0 0 "Title" "Desc" ["Yes", "No"] 100) s0).1

/-- `sProp` after address 0 voted for option 0 at time 5. -/
def sVoted : VState := (execTx (Op.castVote 0 5 0 0 7 [1] true) sProp).1

/-- `s0` after `authorizeVoter(1)` by the owner. -/
def sAuth1 : VState := (execTx (Op.authorizeVoter 0 1) s0).1

/-- `sAuth1` after a second, duplicate `authorizeVoter(1)`. -/
def sAuth2 : VState := (execTx (Op.authorizeVoter 0 1) sAuth1).1

/-- `sProp` after `deactivateProposal(0)`. -/
def sDeact : VState := (execTx (Op.deactivateProposal 0 0) sProp).1

/-- `sProp` after `setResults(0, [3, 5])` at time 101 (past `endTime`). -/
def sRevealed : VState := (execTx (Op.setResults 0 101 0 [3, 5]) sProp).1

/-- `s0` after `addAdmin(1)` by the owner. -/
def sAdminAdded : VState := (execTx (Op.addAdmin 0 1) s0).1

/-!
Client model (`src/lib/fhevm.ts`, class `FHEVMClient`).  The asynchronous
SDK discovery is out of the embedding's scope; its observable outcome is
the boolean `sdkOk` (whether `initializeZamaSDK` ran to completion).  A
reachable real backend is the function `backendEncrypt`, the opaque
encryption capability used on the non-simulated path of `encrypt32`.
-/

/-- Capability-negotiation flags of `FHEVMClient` after `init`. -/
structure FHEVMClient where
  isReady : Bool
  isDevelopmentMode : Bool
  hasInstance : Bool
  sdkInitialized : Bool
deriving DecidableEq, Repr

/-- `FHEVMClient.init`: development mode comes from the environment flag,
is forced on a wrong chain id (anything but Sepolia 11155111), and is the
fallback when SDK initialization fails; in every fallback case the client
still ends `isReady`. -/
def initClient (envDevelopmentMode : Bool) (chainId : Nat) (sdkOk : Bool) :
    FHEVMClient :=
  let dev := if chainId ≠ 11155111 then true else envDevelopmentMode
  if dev then
    { isReady := true, isDevelopmentMode := true
      hasInstance := false, sdkInitialized := false }
  else if sdkOk then
    { isReady := true, isDevelopmentMode := false
      hasInstance := true, sdkInitialized := true }
  else
    { isReady := true, isDevelopmentMode := true
      hasInstance := false, sdkInitialized := false }

/-- `isSimulationMode()` returns the development-mode flag. -/
def FHEVMClient.isSimulationMode (c : FHEVMClient) : Bool :=
  c.isDevelopmentMode

/-- `isInitialized()`. -/
def FHEVMClient.isInitialized (c : FHEVMClient) : Bool :=
  c.isReady

/-- `simulateEncryption(value)`: 32 bytes of data and 32 bytes of proof,
filled from the seed `value + Date.now()` (the wall clock is the extra
argument `nowMs`). -/
def simulateEncryption (value nowMs : Nat) : List Nat × List Nat :=
  let seed := value + nowMs
  ((List.range 32).map fun i => (seed * 7 + i * 13) % 256,
   (List.range 32).map fun i => (seed * 11 + i * 17) % 256)

/-- `encrypt32(value)`: simulated encryption whenever the client is in
development mode, not ready, or has no SDK instance; otherwise the real
backend capability is invoked. -/
def encrypt32 (c : FHEVMClient) (backendEncrypt : Nat → List Nat × List Nat)
    (value nowMs : Nat) : List Nat × List Nat :=
  if c.isDevelopmentMode || !c.isReady || !c.hasInstance then
    simulateEncryption value nowMs
  else
    backendEncrypt value

/-- `encryptVote(vote)`: range-checks the plaintext (a JS number, hence
possibly negative, modelled as `Int`) before delegating to `encrypt32`. -/
def encryptVote (c : FHEVMClient) (backendEncrypt : Nat → List Nat × List Nat)
    (vote : Int) (nowMs : Nat) : Except String (List Nat × List Nat) :=
  if vote < 0 ∨ vote > 255 then .error "Vote must be between 0 and 255"
  else .ok (encrypt32 c backendEncrypt vote.toNat nowMs)

/-!
Basic lemmas about mapping updates and the `authorizeVoters` loop.
-/

theorem updFn_self {α : Type} (m : Nat → α) (k : Nat) (v : α) : updFn m k v k = v := by
  simp [updFn]

theorem updFn_ne {α : Type} (m : Nat → α) (k k2 : Nat) (v : α) (h : k2 ≠ k) :
    updFn m k v k2 = m k2 := by
  simp [updFn, h]

theorem authStep_foldl_frame (sender : Address) (voters : List Address)
    (acc : VState × List Event) :
    (voters.foldl (authStep sender) acc).1.proposals = acc.1.proposals ∧
    (voters.foldl (authStep sender) acc).1.proposalCount = acc.1.proposalCount ∧
    (voters.foldl (authStep sender) acc).1.owner = acc.1.owner ∧
    (voters.foldl (authStep sender) acc).1.admins = acc.1.admins := by
  induction voters generalizing acc with
  | nil => exact ⟨rfl, rfl, rfl, rfl⟩
  | cons v vs ih =>
      simp only [List.foldl_cons]
      simpa [authStep] using ih (authStep sender acc v)

theorem authStep_foldl_voters_mono (sender : Address) (voters : List Address)
    (acc : VState × List Event) (a : Address)
    (hv : acc.1.authorizedVoters a = true) :
    (voters.foldl (authStep sender) acc).1.authorizedVoters a = true := by
  induction voters generalizing acc with
  | nil => exact hv
  | cons v vs ih =>
      simp only [List.foldl_cons]
      refine ih (authStep sender acc v) ?_
      by_cases h : a = v
      · simp [authStep, updFn, h]
      · simpa [authStep, updFn, h] using hv

/-- Characterization of every successful transaction: which operation it
was, the preconditions its guards established, and the exact post-state
and event list. -/
theorem step_cases (op : Op) (s s2 : VState) (evs : List Event)
    (h : applyOp op s = .ok (s2, evs)) :
    (∃ sender admin, op = Op.addAdmin sender admin ∧ sender = s.owner ∧
       s2 = { s with admins := updFn s.admins admin true } ∧
       evs = [Event.adminAdded admin sender]) ∨
    (∃ sender voter, op = Op.authorizeVoter sender voter ∧ isAdminSender s sender ∧
       s2 = { s with authorizedVoters := updFn s.authorizedVoters voter true } ∧
       evs = [Event.voterAuthorized voter sender]) ∨
    (∃ sender voters, op = Op.authorizeVoters sender voters ∧ isAdminSender s sender ∧
       s2 = (voters.foldl (authStep sender) (s, [])).1 ∧
       evs = (voters.foldl (authStep sender) (s, [])).2) ∨
    (∃ sender now title description options votingDuration,
       op = Op.createProposal sender now title description options votingDuration ∧
       isAdminSender s sender ∧ 2 ≤ options.length ∧ options.length ≤ 10 ∧
       0 < votingDuration ∧ now + votingDuration < UINT256_MOD ∧
       s2 = { s with
                proposals := updFn s.proposals s.proposalCount
                  (createUpd (s.proposals s.proposalCount) s.proposalCount sender now
                    title description options votingDuration)
                proposalCount := s.proposalCount + 1 } ∧
       evs = [Event.proposalCreated s.proposalCount title sender now
                (now + votingDuration)]) ∨
    (∃ sender now pid optIdx encVote inputProof proofOk,
       op = Op.castVote sender now pid optIdx encVote inputProof proofOk ∧
       s.authorizedVoters sender = true ∧ pid < s.proposalCount ∧
       (s.proposals pid).active = true ∧
       (s.proposals pid).startTime ≤ now ∧ now ≤ (s.proposals pid).endTime ∧
       (s.proposals pid).hasVoted sender = false ∧
       optIdx < (s.proposals pid).options.length ∧ proofOk = true ∧
       s2 = { s with proposals :=
                       updFn s.proposals pid
                         (voteUpd (s.proposals pid) sender optIdx encVote inputProof) } ∧
       evs = [Event.voteCast pid sender ((s.proposals pid).totalVotes + 1)]) ∨
    (∃ sender now pid results,
       op = Op.setResults sender now pid results ∧
       isAdminSender s sender ∧ pid < s.proposalCount ∧
       (s.proposals pid).active = true ∧ (s.proposals pid).endTime < now ∧
       (s.proposals pid).resultsRevealed = false ∧
       results.length = (s.proposals pid).options.length ∧
       s2 = { s with proposals :=
                updFn s.proposals pid (revealUpd (s.proposals pid) results) } ∧
       evs = [Event.resultsRevealed pid results]) ∨
    (∃ sender now pid,
       op = Op.requestDecryption sender now pid ∧ s2 = s ∧ evs = []) ∨
    (∃ sender pid,
       op = Op.deactivateProposal sender pid ∧
       isAdminSender s sender ∧ pid < s.proposalCount ∧
       (s.proposals pid).active = true ∧
       s2 = { s with proposals :=
                updFn s.proposals pid { s.proposals pid with active := false } } ∧
       evs = []) := by
  cases op with
  | addAdmin sender admin =>
      simp only [applyOp, addAdmin] at h
      split at h
      · simp only [Except.ok.injEq, Prod.mk.injEq] at h
        obtain ⟨hs, he⟩ := h
        rename_i h1
        exact Or.inl ⟨sender, admin, rfl, h1, hs.symm, he.symm⟩
      · exact Except.noConfusion h
  | authorizeVoter sender voter =>
      simp only [applyOp, authorizeVoter] at h
      split at h
      · simp only [Except.ok.injEq, Prod.mk.injEq] at h
        obtain ⟨hs, he⟩ := h
        rename_i h1
        exact Or.inr (Or.inl ⟨sender, voter, rfl, h1, hs.symm, he.symm⟩)
      · exact Except.noConfusion h
  | authorizeVoters sender voters =>
      simp only [applyOp, authorizeVoters] at h
      split at h
      · simp only [Except.ok.injEq] at h
        rename_i h1
        refine Or.inr (Or.inr (Or.inl ⟨sender, voters, rfl, h1, ?_, ?_⟩))
        · rw [h]
        · rw [h]
      · exact Except.noConfusion h
  | createProposal sender now title description options votingDuration =>
      simp only [applyOp] at h
      cases hc : createProposal s sender now title description options votingDuration with
      | error e =>
          rw [hc] at h
          simp only [dropRet] at h
          exact Except.noConfusion h
      | ok r =>
          rw [hc] at h
          simp only [dropRet, Except.ok.injEq, Prod.mk.injEq] at h
          obtain ⟨hs, he⟩ := h
          simp only [createProposal] at hc
          repeat' split at hc
          all_goals try exact Except.noConfusion hc
          simp only [Except.ok.injEq] at hc
          subst hc
          rename_i h1 h2 h3 h4 h5
          exact Or.inr (Or.inr (Or.inr (Or.inl
            ⟨sender, now, title, description, options, votingDuration, rfl,
             h1, h2, h3, h4, h5, hs.symm, he.symm⟩)))
  | castVote sender now pid optIdx encVote inputProof proofOk =>
      simp only [applyOp, castVote] at h
      repeat' split at h
      all_goals try exact Except.noConfusion h
      simp only [Except.ok.injEq, Prod.mk.injEq] at h
      obtain ⟨hs, he⟩ := h
      rename_i h1 h2 h3 h4 h5 h6 h7
      exact Or.inr (Or.inr (Or.inr (Or.inr (Or.inl
        ⟨sender, now, pid, optIdx, encVote, inputProof, proofOk, rfl,
         h1, h2, h3, h4.1, h4.2, by simpa using h5, h6, h7, hs.symm, he.symm⟩))))
  | setResults sender now pid results =>
      simp only [applyOp, setResults] at h
      repeat' split at h
      all_goals try exact Except.noConfusion h
      simp only [Except.ok.injEq, Prod.mk.injEq] at h
      obtain ⟨hs, he⟩ := h
      rename_i h1 h2 h3 h4 h5 h6
      exact Or.inr (Or.inr (Or.inr (Or.inr (Or.inr (Or.inl
        ⟨sender, now, pid, results, rfl, h1, h2, h3, h4,
         by simpa using h5, h6, hs.symm, he.symm⟩)))))
  | requestDecryption sender now pid =>
      simp only [applyOp, requestDecryption] at h
      repeat' split at h
      all_goals try exact Except.noConfusion h
      simp only [Except.ok.injEq, Prod.mk.injEq] at h
      obtain ⟨hs, he⟩ := h
      exact Or.inr (Or.inr (Or.inr (Or.inr (Or.inr (Or.inr (Or.inl
        ⟨sender, now, pid, rfl, hs.symm, he.symm⟩))))))
  | deactivateProposal sender pid =>
      simp only [applyOp, deactivateProposal] at h
      repeat' split at h
      all_goals try exact Except.noConfusion h
      simp only [Except.ok.injEq, Prod.mk.injEq] at h
      obtain ⟨hs, he⟩ := h
      rename_i h1 h2 h3
      exact Or.inr (Or.inr (Or.inr (Or.inr (Or.inr (Or.inr (Or.inr
        ⟨sender, pid, rfl, h1, h2, h3, hs.symm, he.symm⟩))))))

/-!
Frame and monotonicity facts about single successful transactions,
derived from `step_cases`, and their closure under transaction lists.
-/

theorem step_owner_eq (op : Op) (s s2 : VState) (evs : List Event)
    (h : applyOp op s = .ok (s2, evs)) : s2.owner = s.owner := by
  rcases step_cases op s s2 evs h with
      ⟨sender, admin, hop, h1, rfl, he⟩ | ⟨sender, voter, hop, h1, rfl, he⟩ |
      ⟨sender, voters, hop, h1, rfl, he⟩ |
      ⟨sender, now, t, d, o, dur, hop, h1, h2, h3, h4, h5, rfl, he⟩ |
      ⟨sender, now, pid2, oi, ev, ip, pk, hop, h1, h2, h3, h4, h5, h6, h7, h8, rfl, he⟩ |
      ⟨sender, now, pid2, res, hop, h1, h2, h3, h4, h5, h6, rfl, he⟩ |
      ⟨sender, now, pid2, hop, rfl, he⟩ |
      ⟨sender, pid2, hop, h1, h2, h3, rfl, he⟩
  · rfl
  · rfl
  · exact (authStep_foldl_frame sender voters (s, [])).2.2.1
  · rfl
  · rfl
  · rfl
  · rfl
  · rfl

theorem step_admins_mono (op : Op) (s s2 : VState) (evs : List Event)
    (h : applyOp op s = .ok (s2, evs)) (a : Address)
    (ha : s.admins a = true) : s2.admins a = true := by
  rcases step_cases op s s2 evs h with
      ⟨sender, admin, hop, h1, rfl, he⟩ | ⟨sender, voter, hop, h1, rfl, he⟩ |
      ⟨sender, voters, hop, h1, rfl, he⟩ |
      ⟨sender, now, t, d, o, dur, hop, h1, h2, h3, h4, h5, rfl, he⟩ |
      ⟨sender, now, pid2, oi, ev, ip, pk, hop, h1, h2, h3, h4, h5, h6, h7, h8, rfl, he⟩ |
      ⟨sender, now, pid2, res, hop, h1, h2, h3, h4, h5, h6, rfl, he⟩ |
      ⟨sender, now, pid2, hop, rfl, he⟩ |
      ⟨sender, pid2, hop, h1, h2, h3, rfl, he⟩
  · rcases eq_or_ne a admin with rfl | hk
    · exact updFn_self s.admins a true
    · rw [show ({ s with admins := updFn s.admins admin true } : VState).admins a
            = updFn s.admins admin true a from rfl, updFn_ne _ _ _ _ hk]
      exact ha
  · exact ha
  · rw [(authStep_foldl_frame sender voters (s, [])).2.2.2]; exact ha
  · exact ha
  · exact ha
  · exact ha
  · exact ha
  · exact ha

theorem step_voters_mono (op : Op) (s s2 : VState) (evs : List Event)
    (h : applyOp op s = .ok (s2, evs)) (a : Address)
    (ha : s.authorizedVoters a = true) : s2.authorizedVoters a = true := by
  rcases step_cases op s s2 evs h with
      ⟨sender, admin, hop, h1, rfl, he⟩ | ⟨sender, voter, hop, h1, rfl, he⟩ |
      ⟨sender, voters, hop, h1, rfl, he⟩ |
      ⟨sender, now, t, d, o, dur, hop, h1, h2, h3, h4, h5, rfl, he⟩ |
      ⟨sender, now, pid2, oi, ev, ip, pk, hop, h1, h2, h3, h4, h5, h6, h7, h8, rfl, he⟩ |
      ⟨sender, now, pid2, res, hop, h1, h2, h3, h4, h5, h6, rfl, he⟩ |
      ⟨sender, now, pid2, hop, rfl, he⟩ |
      ⟨sender, pid2, hop, h1, h2, h3, rfl, he⟩
  · exact ha
  · rcases eq_or_ne a voter with rfl | hk
    · exact updFn_self s.authorizedVoters a true
    · rw [show ({ s with authorizedVoters := updFn s.authorizedVoters voter true }
            : VState).authorizedVoters a = updFn s.authorizedVoters voter true a from rfl,
          updFn_ne _ _ _ _ hk]
      exact ha
  · exact authStep_foldl_voters_mono sender voters (s, []) a ha
  · exact ha
  · exact ha
  · exact ha
  · exact ha
  · exact ha

theorem step_count_mono (op : Op) (s s2 : VState) (evs : List Event)
    (h : applyOp op s = .ok (s2, evs)) : s.proposalCount ≤ s2.proposalCount := by
  rcases step_cases op s s2 evs h with
      ⟨sender, admin, hop, h1, rfl, he⟩ | ⟨sender, voter, hop, h1, rfl, he⟩ |
      ⟨sender, voters, hop, h1, rfl, he⟩ |
      ⟨sender, now, t, d, o, dur, hop, h1, h2, h3, h4, h5, rfl, he⟩ |
      ⟨sender, now, pid2, oi, ev, ip, pk, hop, h1, h2, h3, h4, h5, h6, h7, h8, rfl, he⟩ |
      ⟨sender, now, pid2, res, hop, h1, h2, h3, h4, h5, h6, rfl, he⟩ |
      ⟨sender, now, pid2, hop, rfl, he⟩ |
      ⟨sender, pid2, hop, h1, h2, h3, rfl, he⟩
  · exact le_rfl
  · exact le_rfl
  · exact le_of_eq (authStep_foldl_frame sender voters (s, [])).2.1.symm
  · exact Nat.le_succ _
  · exact le_rfl
  · exact le_rfl
  · exact le_rfl
  · exact le_rfl

theorem step_frozen_slot (op : Op) (s s2 : VState) (evs : List Event)
    (h : applyOp op s = .ok (s2, evs)) (pid : Nat)
    (hpid : pid < s.proposalCount) (hina : (s.proposals pid).active = false) :
    s2.proposals pid = s.proposals pid ∧ pid < s2.proposalCount := by
  rcases step_cases op s s2 evs h with
      ⟨sender, admin, hop, h1, rfl, he⟩ | ⟨sender, voter, hop, h1, rfl, he⟩ |
      ⟨sender, voters, hop, h1, rfl, he⟩ |
      ⟨sender, now, t, d, o, dur, hop, h1, h2, h3, h4, h5, rfl, he⟩ |
      ⟨sender, now, pid2, oi, ev, ip, pk, hop, h1, h2, h3, h4, h5, h6, h7, h8, rfl, he⟩ |
      ⟨sender, now, pid2, res, hop, h1, h2, h3, h4, h5, h6, rfl, he⟩ |
      ⟨sender, now, pid2, hop, rfl, he⟩ |
      ⟨sender, pid2, hop, h1, h2, h3, rfl, he⟩
  · exact ⟨rfl, hpid⟩
  · exact ⟨rfl, hpid⟩
  · exact ⟨by rw [(authStep_foldl_frame sender voters (s, [])).1],
           by rw [(authStep_foldl_frame sender voters (s, [])).2.1]; exact hpid⟩
  · exact ⟨updFn_ne _ _ _ _ (Nat.ne_of_lt hpid), Nat.lt_succ_of_lt hpid⟩
  · rcases eq_or_ne pid pid2 with rfl | hk
    · rw [hina] at h3; exact Bool.noConfusion h3
    · exact ⟨updFn_ne _ _ _ _ hk, hpid⟩
  · rcases eq_or_ne pid pid2 with rfl | hk
    · rw [hina] at h3; exact Bool.noConfusion h3
    · exact ⟨updFn_ne _ _ _ _ hk, hpid⟩
  · exact ⟨rfl, hpid⟩
  · rcases eq_or_ne pid pid2 with rfl | hk
    · rw [hina] at h3; exact Bool.noConfusion h3
    · exact ⟨updFn_ne _ _ _ _ hk, hpid⟩

theorem step_hasVoted_mono (op : Op) (s s2 : VState) (evs : List Event)
    (h : applyOp op s = .ok (s2, evs)) (pid : Nat) (voter : Address)
    (hv : (s.proposals pid).hasVoted voter = true) :
    (s2.proposals pid).hasVoted voter = true := by
  rcases step_cases op s s2 evs h with
      ⟨sender, admin, hop, h1, rfl, he⟩ | ⟨sender, voter2, hop, h1, rfl, he⟩ |
      ⟨sender, voters, hop, h1, rfl, he⟩ |
      ⟨sender, now, t, d, o, dur, hop, h1, h2, h3, h4, h5, rfl, he⟩ |
      ⟨sender, now, pid2, oi, ev, ip, pk, hop, h1, h2, h3, h4, h5, h6, h7, h8, rfl, he⟩ |
      ⟨sender, now, pid2, res, hop, h1, h2, h3, h4, h5, h6, rfl, he⟩ |
      ⟨sender, now, pid2, hop, rfl, he⟩ |
      ⟨sender, pid2, hop, h1, h2, h3, rfl, he⟩
  · exact hv
  · exact hv
  · rw [(authStep_foldl_frame sender voters (s, [])).1]; exact hv
  · rcases eq_or_ne pid s.proposalCount with rfl | hk
    · show (updFn s.proposals s.proposalCount _ s.proposalCount).hasVoted voter = true
      rw [updFn_self]
      simpa [createUpd] using hv
    · show (updFn s.proposals s.proposalCount _ pid).hasVoted voter = true
      rw [updFn_ne _ _ _ _ hk]; exact hv
  · rcases eq_or_ne pid pid2 with rfl | hk
    · show (updFn s.proposals pid _ pid).hasVoted voter = true
      rw [updFn_self]
      rcases eq_or_ne voter sender with rfl | hk2
      · simp [voteUpd, updFn_self]
      · simpa [voteUpd, updFn_ne _ _ _ _ hk2] using hv
    · show (updFn s.proposals pid2 _ pid).hasVoted voter = true
      rw [updFn_ne _ _ _ _ hk]; exact hv
  · rcases eq_or_ne pid pid2 with rfl | hk
    · show (updFn s.proposals pid _ pid).hasVoted voter = true
      rw [updFn_self]
      simpa [revealUpd] using hv
    · show (updFn s.proposals pid2 _ pid).hasVoted voter = true
      rw [updFn_ne _ _ _ _ hk]; exact hv
  · exact hv
  · rcases eq_or_ne pid pid2 with rfl | hk
    · show (updFn s.proposals pid _ pid).hasVoted voter = true
      rw [updFn_self]
      simpa using hv
    · show (updFn s.proposals pid2 _ pid).hasVoted voter = true
      rw [updFn_ne _ _ _ _ hk]; exact hv

theorem step_revealed_true (op : Op) (s s2 : VState) (evs : List Event)
    (h : applyOp op s = .ok (s2, evs)) (pid : Nat)
    (hv : (s.proposals pid).resultsRevealed = true) :
    (s2.proposals pid).resultsRevealed = true := by
  rcases step_cases op s s2 evs h with
      ⟨sender, admin, hop, h1, rfl, he⟩ | ⟨sender, voter2, hop, h1, rfl, he⟩ |
      ⟨sender, voters, hop, h1, rfl, he⟩ |
      ⟨sender, now, t, d, o, dur, hop, h1, h2, h3, h4, h5, rfl, he⟩ |
      ⟨sender, now, pid2, oi, ev, ip, pk, hop, h1, h2, h3, h4, h5, h6, h7, h8, rfl, he⟩ |
      ⟨sender, now, pid2, res, hop, h1, h2, h3, h4, h5, h6, rfl, he⟩ |
      ⟨sender, now, pid2, hop, rfl, he⟩ |
      ⟨sender, pid2, hop, h1, h2, h3, rfl, he⟩
  · exact hv
  · exact hv
  · rw [(authStep_foldl_frame sender voters (s, [])).1]; exact hv
  · rcases eq_or_ne pid s.proposalCount with rfl | hk
    · show (updFn s.proposals s.proposalCount _ s.proposalCount).resultsRevealed = true
      rw [updFn_self]
      simpa [createUpd] using hv
    · show (updFn s.proposals s.proposalCount _ pid).resultsRevealed = true
      rw [updFn_ne _ _ _ _ hk]; exact hv
  · rcases eq_or_ne pid pid2 with rfl | hk
    · show (updFn s.proposals pid _ pid).resultsRevealed = true
      rw [updFn_self]
      simp [voteUpd]
      simpa [voteUpd] using hv
    · show (updFn s.proposals pid2 _ pid).resultsRevealed = true
      rw [updFn_ne _ _ _ _ hk]; exact hv
  · rcases eq_or_ne pid pid2 with rfl | hk
    · show (updFn s.proposals pid _ pid).resultsRevealed = true
      rw [updFn_self]
      simp [revealUpd]
    · show (updFn s.proposals pid2 _ pid).resultsRevealed = true
      rw [updFn_ne _ _ _ _ hk]; exact hv
  · exact hv
  · rcases eq_or_ne pid pid2 with rfl | hk
    · show (updFn s.proposals pid _ pid).resultsRevealed = true
      rw [updFn_self]
      simpa using hv
    · show (updFn s.proposals pid2 _ pid).resultsRevealed = true
      rw [updFn_ne _ _ _ _ hk]; exact hv

theorem execTx_cases (op : Op) (s : VState) :
    (∃ e, applyOp op s = .error e ∧ execTx op s = (s, [], some e)) ∨
    (∃ s2 evs, applyOp op s = .ok (s2, evs) ∧ execTx op s = (s2, evs, none)) := by
  cases happ : applyOp op s with
  | ok r =>
      obtain ⟨s2, evs⟩ := r
      exact Or.inr ⟨s2, evs, rfl, by simp [execTx, happ]⟩
  | error e => exact Or.inl ⟨e, rfl, by simp [execTx, happ]⟩

theorem execList_frozen (pid : Nat) (ops : List Op) (s : VState)
    (hpid : pid < s.proposalCount) (hina : (s.proposals pid).active = false) :
    (execList s ops).proposals pid = s.proposals pid ∧
    pid < (execList s ops).proposalCount := by
  induction ops generalizing s with
  | nil => exact ⟨rfl, hpid⟩
  | cons op rest ih =>
      show (execList (execTx op s).1 rest).proposals pid = s.proposals pid ∧
           pid < (execList (execTx op s).1 rest).proposalCount
      rcases execTx_cases op s with ⟨e, happ, hexec⟩ | ⟨s2, evs, happ, hexec⟩
      · rw [hexec]; exact ih s hpid hina
      · rw [hexec]
        have hfr := step_frozen_slot op s s2 evs happ pid hpid hina
        have hina2 : (s2.proposals pid).active = false := by rw [hfr.1]; exact hina
        have := ih s2 hfr.2 hina2
        exact ⟨by rw [this.1, hfr.1], this.2⟩

theorem execList_revealed (pid : Nat) (ops : List Op) (s : VState)
    (hrev : (s.proposals pid).resultsRevealed = true) :
    ((execList s ops).proposals pid).resultsRevealed = true := by
  induction ops generalizing s with
  | nil => exact hrev
  | cons op rest ih =>
      show ((execList (execTx op s).1 rest).proposals pid).resultsRevealed = true
      rcases execTx_cases op s with ⟨e, happ, hexec⟩ | ⟨s2, evs, happ, hexec⟩
      · rw [hexec]; exact ih s hrev
      · rw [hexec]; exact ih s2 (step_revealed_true op s s2 evs happ pid hrev)

/-- From any reachable state, every proposal slot at index
`proposalCount` or beyond is still at its zero default. -/
theorem reachable_fresh (s : VState) (hr : Reachable s) :
    ∀ i, s.proposalCount ≤ i → s.proposals i = defaultProposal := by
  induction hr with
  | init d => intro i _; rfl
  | step op t t2 evs hr2 happ ih =>
      intro i hi
      rcases step_cases op t t2 evs happ with
          ⟨sender, admin, hop, h1, rfl, he⟩ | ⟨sender, voter2, hop, h1, rfl, he⟩ |
          ⟨sender, voters, hop, h1, rfl, he⟩ |
          ⟨sender, now, ti, d2, o, dur, hop, h1, h2, h3, h4, h5, rfl, he⟩ |
          ⟨sender, now, pid2, oi, ev, ip, pk, hop, h1, h2, h3, h4, h5, h6, h7, h8, rfl, he⟩ |
          ⟨sender, now, pid2, res, hop, h1, h2, h3, h4, h5, h6, rfl, he⟩ |
          ⟨sender, now, pid2, hop, rfl, he⟩ |
          ⟨sender, pid2, hop, h1, h2, h3, rfl, he⟩
      · exact ih i hi
      · exact ih i hi
      · rw [(authStep_foldl_frame sender voters (t, [])).1]
        rw [(authStep_foldl_frame sender voters (t, [])).2.1] at hi
        exact ih i hi
      · show updFn t.proposals t.proposalCount _ i = defaultProposal
        have hgt : t.proposalCount < i := hi
        rw [updFn_ne _ _ _ _ (Nat.ne_of_gt hgt)]
        exact ih i (le_of_lt hgt)
      · show updFn t.proposals pid2 _ i = defaultProposal
        rw [updFn_ne _ _ _ _ (Nat.ne_of_gt (lt_of_lt_of_le h2 hi))]
        exact ih i hi
      · show updFn t.proposals pid2 _ i = defaultProposal
        rw [updFn_ne _ _ _ _ (Nat.ne_of_gt (lt_of_lt_of_le h2 hi))]
        exact ih i hi
      · exact ih i hi
      · show updFn t.proposals pid2 _ i = defaultProposal
        rw [updFn_ne _ _ _ _ (Nat.ne_of_gt (lt_of_lt_of_le h2 hi))]
        exact ih i hi

/-!
Guard-failure lemmas: calls that revert because a specific `require`
cannot be passed.
-/

theorem castVote_alreadyVoted (t : VState) (voter : Address) (now : Nat)
    (pid optIdx encVote : Nat) (inputProof : List Nat) (proofOk : Bool)
    (hauth : t.authorizedVoters voter = true) (hpid : pid < t.proposalCount)
    (hact : (t.proposals pid).active = true)
    (hw1 : (t.proposals pid).startTime ≤ now) (hw2 : now ≤ (t.proposals pid).endTime)
    (hv : (t.proposals pid).hasVoted voter = true) :
    castVote t voter now pid optIdx encVote inputProof proofOk = .error .alreadyVoted := by
  unfold castVote
  rw [if_pos hauth, if_pos hpid, if_pos hact, if_pos (⟨hw1, hw2⟩ : _ ∧ _), if_pos hv]

theorem castVote_fails_of_hasVoted (t : VState) (voter : Address) (now : Nat)
    (pid optIdx encVote : Nat) (inputProof : List Nat) (proofOk : Bool)
    (hv : (t.proposals pid).hasVoted voter = true) :
    ∃ e, castVote t voter now pid optIdx encVote inputProof proofOk = .error e := by
  by_cases h1 : t.authorizedVoters voter = true
  case neg => exact ⟨.notAuthorizedVoter, by unfold castVote; rw [if_neg h1]⟩
  by_cases h2 : pid < t.proposalCount
  case neg => exact ⟨.invalidProposalId, by unfold castVote; rw [if_pos h1, if_neg h2]⟩
  by_cases h3 : (t.proposals pid).active = true
  case neg =>
    exact ⟨.proposalNotActive, by unfold castVote; rw [if_pos h1, if_pos h2, if_neg h3]⟩
  by_cases h4 : now ≥ (t.proposals pid).startTime ∧ now ≤ (t.proposals pid).endTime
  case neg =>
    exact ⟨.votingPeriodNotActive,
      by unfold castVote; rw [if_pos h1, if_pos h2, if_pos h3, if_neg h4]⟩
  exact ⟨.alreadyVoted,
    castVote_alreadyVoted t voter now pid optIdx encVote inputProof proofOk
      h1 h2 h3 h4.1 h4.2 hv⟩

theorem castVote_window_error (s : VState) (voter : Address) (now : Nat)
    (pid optIdx encVote : Nat) (inputProof : List Nat) (proofOk : Bool)
    (hauth : s.authorizedVoters voter = true) (hpid : pid < s.proposalCount)
    (hact : (s.proposals pid).active = true)
    (hw : now < (s.proposals pid).startTime ∨ (s.proposals pid).endTime < now) :
    castVote s voter now pid optIdx encVote inputProof proofOk
      = .error .votingPeriodNotActive := by
  have hnw : ¬ (now ≥ (s.proposals pid).startTime ∧ now ≤ (s.proposals pid).endTime) := by
    rintro ⟨hge, hle⟩
    rcases hw with hlt | hlt <;> omega
  unfold castVote
  rw [if_pos hauth, if_pos hpid, if_pos hact, if_neg hnw]

theorem castVote_not_window_error (s : VState) (voter : Address) (now : Nat)
    (pid optIdx encVote : Nat) (inputProof : List Nat) (proofOk : Bool)
    (hauth : s.authorizedVoters voter = true) (hpid : pid < s.proposalCount)
    (hact : (s.proposals pid).active = true)
    (hw1 : (s.proposals pid).startTime ≤ now) (hw2 : now ≤ (s.proposals pid).endTime) :
    castVote s voter now pid optIdx encVote inputProof proofOk
      ≠ .error .votingPeriodNotActive := by
  unfold castVote
  rw [if_pos hauth, if_pos hpid, if_pos hact, if_pos (⟨hw1, hw2⟩ : _ ∧ _)]
  by_cases h5 : (s.proposals pid).hasVoted voter = true
  · rw [if_pos h5]; simp
  · rw [if_neg h5]
    by_cases h6 : optIdx < (s.proposals pid).options.length
    · rw [if_pos h6]
      by_cases h7 : proofOk = true
      · rw [if_pos h7]; simp
      · rw [if_neg h7]; simp
    · rw [if_neg h6]; simp

theorem setResults_fails_of_revealed (t : VState) (sender : Address) (now pid : Nat)
    (results : List Nat) (hrev : (t.proposals pid).resultsRevealed = true) :
    ∃ e, setResults t sender now pid results = .error e := by
  by_cases h1 : isAdminSender t sender
  case neg => exact ⟨.notAdmin, by unfold setResults; rw [if_neg h1]⟩
  by_cases h2 : pid < t.proposalCount
  case neg => exact ⟨.invalidProposalId, by unfold setResults; rw [if_pos h1, if_neg h2]⟩
  by_cases h3 : (t.proposals pid).active = true
  case neg =>
    exact ⟨.proposalNotActive, by unfold setResults; rw [if_pos h1, if_pos h2, if_neg h3]⟩
  by_cases h4 : now > (t.proposals pid).endTime
  case neg =>
    exact ⟨.votingStillActive,
      by unfold setResults; rw [if_pos h1, if_pos h2, if_pos h3, if_neg h4]⟩
  exact ⟨.resultsAlreadyRevealed,
    by unfold setResults; rw [if_pos h1, if_pos h2, if_pos h3, if_pos h4, if_pos hrev]⟩

theorem setResults_fails_of_inactive (t : VState) (sender : Address) (now pid : Nat)
    (results : List Nat) (hina : (t.proposals pid).active = false) :
    ∃ e, setResults t sender now pid results = .error e := by
  have h3 : ¬ (t.proposals pid).active = true := by simp [hina]
  by_cases h1 : isAdminSender t sender
  case neg => exact ⟨.notAdmin, by unfold setResults; rw [if_neg h1]⟩
  by_cases h2 : pid < t.proposalCount
  case neg => exact ⟨.invalidProposalId, by unfold setResults; rw [if_pos h1, if_neg h2]⟩
  exact ⟨.proposalNotActive, by unfold setResults; rw [if_pos h1, if_pos h2, if_neg h3]⟩

theorem requestDecryption_fails_of_inactive (t : VState) (sender : Address)
    (now pid : Nat) (hina : (t.proposals pid).active = false) :
    ∃ e, requestDecryption t sender now pid = .error e := by
  have h3 : ¬ (t.proposals pid).active = true := by simp [hina]
  by_cases h1 : isAdminSender t sender
  case neg => exact ⟨.notAdmin, by unfold requestDecryption; rw [if_neg h1]⟩
  by_cases h2 : pid < t.proposalCount
  case neg =>
    exact ⟨.invalidProposalId, by unfold requestDecryption; rw [if_pos h1, if_neg h2]⟩
  exact ⟨.proposalNotActive, by unfold requestDecryption; rw [if_pos h1, if_pos h2, if_neg h3]⟩

theorem deactivateProposal_fails_of_inactive (t : VState) (sender : Address)
    (pid : Nat) (hina : (t.proposals pid).active = false) :
    ∃ e, deactivateProposal t sender pid = .error e := by
  have h3 : ¬ (t.proposals pid).active = true := by simp [hina]
  by_cases h1 : isAdminSender t sender
  case neg => exact ⟨.notAdmin, by unfold deactivateProposal; rw [if_neg h1]⟩
  by_cases h2 : pid < t.proposalCount
  case neg =>
    exact ⟨.invalidProposalId, by unfold deactivateProposal; rw [if_pos h1, if_neg h2]⟩
  exact ⟨.proposalNotActive,
    by unfold deactivateProposal; rw [if_pos h1, if_pos h2, if_neg h3]⟩

/-!
Success-shape lemmas and the remaining invariants.
-/

theorem authorizeVoter_ok_inv (s s1 : VState) (evs : List Event) (sender voter : Address)
    (h : authorizeVoter s sender voter = .ok (s1, evs)) :
    isAdminSender s sender ∧
    s1 = { s with authorizedVoters := updFn s.authorizedVoters voter true } ∧
    evs = [Event.voterAuthorized voter sender] := by
  unfold authorizeVoter at h
  split at h
  · rename_i h1
    simp only [Except.ok.injEq, Prod.mk.injEq] at h
    exact ⟨h1, h.1.symm, h.2.symm⟩
  · exact Except.noConfusion h

theorem updFn_eq_of_already {α : Type} (m : Nat → α) (k : Nat) (v : α) (h : m k = v) :
    updFn m k v = m := by
  funext x
  rcases eq_or_ne x k with rfl | hk
  · rw [updFn_self, h]
  · rw [updFn_ne _ _ _ _ hk]

theorem createProposal_ok (s : VState) (sender : Address) (now : Nat)
    (title description : String) (options : List String) (votingDuration : Nat)
    (hadm : isAdminSender s sender) (h2 : options.length ≥ 2)
    (h10 : options.length ≤ 10) (hdur : votingDuration > 0)
    (hov : now + votingDuration < UINT256_MOD) :
    createProposal s sender now title description options votingDuration =
      .ok ({ s with
               proposals := updFn s.proposals s.proposalCount
                 (createUpd (s.proposals s.proposalCount) s.proposalCount sender now
                   title description options votingDuration)
               proposalCount := s.proposalCount + 1 },
           [Event.proposalCreated s.proposalCount title sender now (now + votingDuration)],
           s.proposalCount) := by
  unfold createProposal
  rw [if_pos hadm, if_pos h2, if_pos h10, if_pos hdur, if_pos hov]

theorem step_totalVotes_other (op : Op) (s s2 : VState) (evs : List Event)
    (h : applyOp op s = .ok (s2, evs)) (pid : Nat)
    (hnot : ¬ ∃ sender now optIdx encVote inputProof proofOk,
        op = Op.castVote sender now pid optIdx encVote inputProof proofOk) :
    (s2.proposals pid).totalVotes = (s.proposals pid).totalVotes := by
  rcases step_cases op s s2 evs h with
      ⟨sender, admin, hop, h1, rfl, he⟩ | ⟨sender, voter2, hop, h1, rfl, he⟩ |
      ⟨sender, voters, hop, h1, rfl, he⟩ |
      ⟨sender, now, t, d, o, dur, hop, h1, h2, h3, h4, h5, rfl, he⟩ |
      ⟨sender, now, pid2, oi, ev, ip, pk, hop, h1, h2, h3, h4, h5, h6, h7, h8, rfl, he⟩ |
      ⟨sender, now, pid2, res, hop, h1, h2, h3, h4, h5, h6, rfl, he⟩ |
      ⟨sender, now, pid2, hop, rfl, he⟩ |
      ⟨sender, pid2, hop, h1, h2, h3, rfl, he⟩
  · rfl
  · rfl
  · rw [(authStep_foldl_frame sender voters (s, [])).1]
  · rcases eq_or_ne pid s.proposalCount with rfl | hk
    · show (updFn s.proposals s.proposalCount _ s.proposalCount).totalVotes
          = (s.proposals s.proposalCount).totalVotes
      rw [updFn_self]
      simp [createUpd]
    · show (updFn s.proposals s.proposalCount _ pid).totalVotes
          = (s.proposals pid).totalVotes
      rw [updFn_ne _ _ _ _ hk]
  · rcases eq_or_ne pid pid2 with rfl | hk
    · exact absurd ⟨sender, now, oi, ev, ip, pk, hop⟩ hnot
    · show (updFn s.proposals pid2 _ pid).totalVotes = (s.proposals pid).totalVotes
      rw [updFn_ne _ _ _ _ hk]
  · rcases eq_or_ne pid pid2 with rfl | hk
    · show (updFn s.proposals pid _ pid).totalVotes = (s.proposals pid).totalVotes
      rw [updFn_self]
      simp [revealUpd]
    · show (updFn s.proposals pid2 _ pid).totalVotes = (s.proposals pid).totalVotes
      rw [updFn_ne _ _ _ _ hk]
  · rfl
  · rcases eq_or_ne pid pid2 with rfl | hk
    · show (updFn s.proposals pid _ pid).totalVotes = (s.proposals pid).totalVotes
      rw [updFn_self]
    · show (updFn s.proposals pid2 _ pid).totalVotes = (s.proposals pid).totalVotes
      rw [updFn_ne _ _ _ _ hk]

theorem step_totalVotes_castVote (s s2 : VState) (evs : List Event)
    (sender : Address) (now pid optIdx encVote : Nat) (inputProof : List Nat)
    (proofOk : Bool)
    (h : applyOp (Op.castVote sender now pid optIdx encVote inputProof proofOk) s
        = .ok (s2, evs)) :
    (s2.proposals pid).totalVotes = (s.proposals pid).totalVotes + 1 := by
  rcases step_cases _ s s2 evs h with
      ⟨s3, a3, hop, hrest⟩ | ⟨s3, v3, hop, hrest⟩ | ⟨s3, vs3, hop, hrest⟩ |
      ⟨s3, n3, t3, d3, o3, du3, hop, hrest⟩ |
      ⟨sender2, now2, pid2, oi, ev, ip, pk, hop, h1, h2, h3, h4, h5, h6, h7, h8, rfl, he⟩ |
      ⟨s3, n3, p3, r3, hop, hrest⟩ | ⟨s3, n3, p3, hop, hrest⟩ | ⟨s3, p3, hop, hrest⟩
  all_goals try exact Op.noConfusion hop
  injection hop with e1 e2 e3 e4 e5 e6 e7
  subst e1; subst e2; subst e3; subst e4; subst e5; subst e6; subst e7
  show (updFn s.proposals pid _ pid).totalVotes = (s.proposals pid).totalVotes + 1
  rw [updFn_self]
  simp [voteUpd]

theorem execTx_totalVotes_mono (op : Op) (s : VState) (pid : Nat) :
    (s.proposals pid).totalVotes ≤ ((execTx op s).1.proposals pid).totalVotes := by
  rcases execTx_cases op s with ⟨e, happ, hexec⟩ | ⟨s2, evs, happ, hexec⟩
  · rw [hexec]
  · rw [hexec]
    by_cases hc : ∃ sender now optIdx encVote inputProof proofOk,
        op = Op.castVote sender now pid optIdx encVote inputProof proofOk
    · obtain ⟨sender, now, oi, ev, ip, pk, rfl⟩ := hc
      rw [step_totalVotes_castVote s s2 evs sender now pid oi ev ip pk happ]
      exact Nat.le_succ _
    · rw [step_totalVotes_other op s s2 evs happ pid hc]

/-- From any reachable state, the owner is in `admins` and in
`authorizedVoters`. -/
theorem reachable_owner_flags (s : VState) (hr : Reachable s) :
    s.admins s.owner = true ∧ s.authorizedVoters s.owner = true := by
  induction hr with
  | init d =>
      constructor
      · exact updFn_self (fun _ => false) d true
      · exact updFn_self (fun _ => false) d true
  | step op t t2 evs hr2 happ ih =>
      rw [step_owner_eq op t t2 evs happ]
      exact ⟨step_admins_mono op t t2 evs happ t.owner ih.1,
             step_voters_mono op t t2 evs happ t.owner ih.2⟩

theorem castVote_ok_inv (s s1 : VState) (evs : List Event) (sender : Address)
    (now pid optIdx encVote : Nat) (inputProof : List Nat) (proofOk : Bool)
    (h : castVote s sender now pid optIdx encVote inputProof proofOk = .ok (s1, evs)) :
    s1 = { s with proposals :=
                    updFn s.proposals pid
                      (voteUpd (s.proposals pid) sender optIdx encVote inputProof) } := by
  have happ : applyOp (Op.castVote sender now pid optIdx encVote inputProof proofOk) s
      = .ok (s1, evs) := h
  rcases step_cases _ s s1 evs happ with
      ⟨s3, a3, hop, hrest⟩ | ⟨s3, v3, hop, hrest⟩ | ⟨s3, vs3, hop, hrest⟩ |
      ⟨s3, n3, t3, d3, o3, du3, hop, hrest⟩ |
      ⟨sender2, now2, pid2, oi, ev, ip, pk, hop, h1, h2, h3, h4, h5, h6, h7, h8, rfl, he⟩ |
      ⟨s3, n3, p3, r3, hop, hrest⟩ | ⟨s3, n3, p3, hop, hrest⟩ | ⟨s3, p3, hop, hrest⟩
  all_goals try exact Op.noConfusion hop
  injection hop with e1 e2 e3 e4 e5 e6 e7
  subst e1; subst e2; subst e3; subst e4; subst e5; subst e6; subst e7
  rfl

theorem setResults_ok_inv (s s1 : VState) (evs : List Event) (sender : Address)
    (now pid : Nat) (results : List Nat)
    (h : setResults s sender now pid results = .ok (s1, evs)) :
    s1 = { s with proposals :=
                    updFn s.proposals pid (revealUpd (s.proposals pid) results) } := by
  have happ : applyOp (Op.setResults sender now pid results) s = .ok (s1, evs) := h
  rcases step_cases _ s s1 evs happ with
      ⟨s3, a3, hop, hrest⟩ | ⟨s3, v3, hop, hrest⟩ | ⟨s3, vs3, hop, hrest⟩ |
      ⟨s3, n3, t3, d3, o3, du3, hop, hrest⟩ |
      ⟨s3, n3, p3, oi, ev, ip, pk, hop, hrest⟩ |
      ⟨sender2, now2, pid2, res2, hop, h1, h2, h3, h4, h5, h6, rfl, he⟩ |
      ⟨s3, n3, p3, hop, rfl, he⟩ | ⟨s3, p3, hop, hrest⟩
  all_goals try exact Op.noConfusion hop
  injection hop with e1 e2 e3 e4
  subst e1; subst e2; subst e3; subst e4
  rfl

/-!
The claims.
-/

/-- Claim C1: for every proposal and every voter address, `castVote`
succeeds at most once for that (proposal, voter) pair.  A successful
`castVote` sets `hasVoted[voter]` to true; the mark is preserved by
every later successful transaction; whenever the mark is set, any
further `castVote` by that voter on that proposal reverts, leaving the
whole state — in particular `totalVotes`, `hasVoted` and every
`encryptedTally` entry — unchanged, and it reverts with `AlreadyVoted`
whenever the guards checked before the `hasVoted` require
(authorization, proposal validity and activity, time window) pass. -/
theorem castVote_at_most_once
    (s s1 : VState) (evs : List Event) (voter : Address) (now : Nat)
    (pid optIdx encVote : Nat) (inputProof : List Nat) (proofOk : Bool)
    (h : castVote s voter now pid optIdx encVote inputProof proofOk = .ok (s1, evs)) :
    (s1.proposals pid).hasVoted voter = true ∧
    (∀ op t t2 evs2, applyOp op t = .ok (t2, evs2) →
       (t.proposals pid).hasVoted voter = true →
       (t2.proposals pid).hasVoted voter = true) ∧
    (∀ t now2 optIdx2 encVote2 inputProof2 proofOk2,
       (t.proposals pid).hasVoted voter = true →
       (∃ e, castVote t voter now2 pid optIdx2 encVote2 inputProof2 proofOk2
           = .error e) ∧
       (execTx (Op.castVote voter now2 pid optIdx2 encVote2 inputProof2 proofOk2) t).1
           = t) ∧
    (∀ t now2 optIdx2 encVote2 inputProof2 proofOk2,
       (t.proposals pid).hasVoted voter = true →
       t.authorizedVoters voter = true → pid < t.proposalCount →
       (t.proposals pid).active = true →
       (t.proposals pid).startTime ≤ now2 → now2 ≤ (t.proposals pid).endTime →
       castVote t voter now2 pid optIdx2 encVote2 inputProof2 proofOk2
         = .error .alreadyVoted) := by
  refine ⟨?_, ?_, ?_, ?_⟩
  · have hs1 := castVote_ok_inv s s1 evs voter now pid optIdx encVote inputProof proofOk h
    subst hs1
    show (updFn s.proposals pid
        (voteUpd (s.proposals pid) voter optIdx encVote inputProof) pid).hasVoted voter
        = true
    rw [updFn_self]
    simp [voteUpd, updFn_self]
  · exact fun op t t2 evs2 h2 hv => step_hasVoted_mono op t t2 evs2 h2 pid voter hv
  · intro t now2 optIdx2 encVote2 inputProof2 proofOk2 hv
    obtain ⟨e, he⟩ := castVote_fails_of_hasVoted t voter now2 pid optIdx2 encVote2
      inputProof2 proofOk2 hv
    have happ : applyOp (Op.castVote voter now2 pid optIdx2 encVote2 inputProof2
        proofOk2) t = .error e := he
    exact ⟨⟨e, he⟩, by simp [execTx, happ]⟩
  · intro t now2 optIdx2 encVote2 inputProof2 proofOk2 hv hauth hpid hact hw1 hw2
    exact castVote_alreadyVoted t voter now2 pid optIdx2 encVote2 inputProof2 proofOk2
      hauth hpid hact hw1 hw2 hv

/-- Witness for C1: address 0 voted on proposal 0 at time 5; a second
attempt at time 6 with different parameters reverts with `AlreadyVoted`. -/
theorem castVote_at_most_once_witness :
    castVote sVoted 0 6 0 1 8 [2] true = .error .alreadyVoted := by
  have h := castVote_at_most_once sProp sVoted [Event.voteCast 0 0 1] 0 5 0 0 7 [1] true
    (by rfl)
  exact h.2.2.2 sVoted 6 1 8 [2] true (by rfl) (by rfl) (by decide) (by rfl)
    (by decide) (by decide)

/-- Claim C2: reveal is one-way.  A successful `setResults` atomically
stores the given results and sets `resultsRevealed`; no sequence of
transactions ever resets `resultsRevealed`; and on a revealed proposal
every later `setResults` call reverts. -/
theorem setResults_one_way
    (s s1 : VState) (evs : List Event) (sender : Address) (now pid : Nat)
    (results : List Nat)
    (h : setResults s sender now pid results = .ok (s1, evs)) :
    (s1.proposals pid).resultsRevealed = true ∧
    (s1.proposals pid).revealedResults = results ∧
    (∀ ops, ((execList s1 ops).proposals pid).resultsRevealed = true) ∧
    (∀ t, (t.proposals pid).resultsRevealed = true →
       ∀ sender2 now2 results2, ∃ e, setResults t sender2 now2 pid results2
           = .error e) := by
  have hs1 := setResults_ok_inv s s1 evs sender now pid results h
  subst hs1
  have hrev : ((updFn s.proposals pid (revealUpd (s.proposals pid) results)) pid).resultsRevealed = true := by
    rw [updFn_self]
    simp [revealUpd]
  refine ⟨hrev, ?_, ?_, ?_⟩
  · show (updFn s.proposals pid (revealUpd (s.proposals pid) results) pid).revealedResults
        = results
    rw [updFn_self]
    simp [revealUpd]
  · intro ops
    exact execList_revealed pid ops _ hrev
  · intro t hrev2 sender2 now2 results2
    exact setResults_fails_of_revealed t sender2 now2 pid results2 hrev2

/-- Witness for C2: proposal 0 revealed as `[3, 5]` at time 101; the flag
survives a later deactivation, and the stored results are `[3, 5]`. -/
theorem setResults_one_way_witness :
    ((execList sRevealed [Op.deactivateProposal 0 0]).proposals 0).resultsRevealed
        = true ∧
    (sRevealed.proposals 0).revealedResults = [3, 5] := by
  have h := setResults_one_way sProp sRevealed [Event.resultsRevealed 0 [3, 5]]
    0 101 0 [3, 5] (by rfl)
  exact ⟨h.2.2.1 [Op.deactivateProposal 0 0], h.2.1⟩

/-- Claim C3 (counterexample): `createProposal` does not succeed for every
positive duration.  With the positive duration `2^256 - 1`, the checked
uint256 computation `endTime = block.timestamp + _votingDuration`
overflows and the call reverts (Solidity 0.8 arithmetic panic), even for
an admin caller with a valid 2-option list. -/
theorem createProposal_positive_duration_cex :
    0 < UINT256_MOD - 1 ∧
    createProposal (initState 0) 0 1 "T" "D" ["A", "B"] (UINT256_MOD - 1)
      = .error .arithmeticOverflow := by
  constructor
  · decide
  · rfl

/-- Claim C3 (amended): for an admin caller, option lists shorter
than 2 or longer than 10 revert with the respective option-count error,
with no state change; with `2 ≤ length ≤ 10`, a positive duration, and —
the amendment forced by the counterexample — no uint256 overflow in
`now + duration`, the call succeeds, stores exactly the given options in
order on the new proposal, and returns the sequential id
`proposalCount`. -/
theorem createProposal_option_bounds
    (s : VState) (sender : Address) (now : Nat) (title description : String)
    (options : List String) (votingDuration : Nat)
    (hr : Reachable s) (hadm : isAdminSender s sender) :
    (options.length < 2 →
       createProposal s sender now title description options votingDuration
           = .error .tooFewOptions ∧
       execTx (Op.createProposal sender now title description options votingDuration) s
           = (s, [], some VError.tooFewOptions)) ∧
    (10 < options.length →
       createProposal s sender now title description options votingDuration
           = .error .tooManyOptions ∧
       execTx (Op.createProposal sender now title description options votingDuration) s
           = (s, [], some VError.tooManyOptions)) ∧
    (2 ≤ options.length → options.length ≤ 10 → 0 < votingDuration →
       now + votingDuration < UINT256_MOD →
       ∃ s2 evs,
         createProposal s sender now title description options votingDuration
             = .ok (s2, evs, s.proposalCount) ∧
         (s2.proposals s.proposalCount).options = options ∧
         s2.proposalCount = s.proposalCount + 1) := by
  refine ⟨?_, ?_, ?_⟩
  · intro hlt
    have hnot : ¬ options.length ≥ 2 := by omega
    have heq : createProposal s sender now title description options votingDuration
        = .error .tooFewOptions := by
      unfold createProposal
      rw [if_pos hadm, if_neg hnot]
    refine ⟨heq, ?_⟩
    have happ : applyOp (Op.createProposal sender now title description options
        votingDuration) s = .error .tooFewOptions := by
      simp only [applyOp]
      rw [heq]
      rfl
    simp [execTx, happ]
  · intro hgt
    have hge : options.length ≥ 2 := by omega
    have hnot : ¬ options.length ≤ 10 := by omega
    have heq : createProposal s sender now title description options votingDuration
        = .error .tooManyOptions := by
      unfold createProposal
      rw [if_pos hadm, if_pos hge, if_neg hnot]
    refine ⟨heq, ?_⟩
    have happ : applyOp (Op.createProposal sender now title description options
        votingDuration) s = .error .tooManyOptions := by
      simp only [applyOp]
      rw [heq]
      rfl
    simp [execTx, happ]
  · intro h2 h10 hdur hov
    have hfresh : s.proposals s.proposalCount = defaultProposal :=
      reachable_fresh s hr s.proposalCount le_rfl
    refine ⟨_, _,
      createProposal_ok s sender now title description options votingDuration
        hadm h2 h10 hdur hov, ?_, rfl⟩
    show (updFn s.proposals s.proposalCount
        (createUpd (s.proposals s.proposalCount) s.proposalCount sender now
          title description options votingDuration) s.proposalCount).options = options
    rw [updFn_self]
    simp [createUpd, hfresh, defaultProposal]

/-- Witness for C3 (amended): a 1-option list and an 11-option list are
rejected; a 2-option list by the deployer succeeds and bumps
`proposalCount` to 1. -/
theorem createProposal_option_bounds_witness :
    createProposal (initState 0) 0 0 "T" "D" ["A"] 100 = .error .tooFewOptions ∧
    createProposal (initState 0) 0 0 "T" "D"
        ["A", "B", "C", "D", "E", "F", "G", "H", "I", "J", "K"] 100
      = .error .tooManyOptions ∧
    (execTx (Op.createProposal 0 0 "T" "D" ["Yes", "No"] 100) (initState 0)).1.proposalCount
      = 1 := by
  have hA := createProposal_option_bounds (initState 0) 0 0 "T" "D" ["A"] 100
    (Reachable.init 0) (Or.inr rfl)
  have hB := createProposal_option_bounds (initState 0) 0 0 "T" "D"
    ["A", "B", "C", "D", "E", "F", "G", "H", "I", "J", "K"] 100
    (Reachable.init 0) (Or.inr rfl)
  have hC := createProposal_option_bounds (initState 0) 0 0 "T" "D" ["Yes", "No"] 100
    (Reachable.init 0) (Or.inr rfl)
  refine ⟨(hA.1 (by decide)).1, (hB.2.1 (by decide)).1, ?_⟩
  obtain ⟨s2, evs, heq, hopts, hcount⟩ := hC.2.2 (by decide) (by decide) (by decide)
    (by decide)
  have happ : applyOp (Op.createProposal 0 0 "T" "D" ["Yes", "No"] 100) (initState 0)
      = .ok (s2, evs) := by
    simp only [applyOp]
    rw [heq]
    rfl
  simp only [execTx, happ]
  rw [hcount]
  rfl

/-- Claim C4 (counterexample): `addAdmin(1)` by the owner makes address 1
an admin without making it an authorized voter, so the inclusion
`admins ⊆ authorizedVoters` claimed by the spec does not hold after this
registry operation. -/
theorem addAdmin_breaks_inclusion_cex :
    sAdminAdded.admins 1 = true ∧ sAdminAdded.authorizedVoters 1 = false :=
  ⟨rfl, rfl⟩

/-- Claim C4 (amended): from initialization onward, after any sequence of
operations, the owner is a member of `admins` and of `authorizedVoters`
(the initializer is auto-admitted to all three roles and no operation
removes a membership or changes the owner).  The further inclusion
`admins ⊆ authorizedVoters` claimed by the spec fails: `addAdmin` does
not add the new admin to `authorizedVoters`. -/
theorem owner_admin_voter_membership (s : VState) (hr : Reachable s) :
    s.admins s.owner = true ∧ s.authorizedVoters s.owner = true :=
  reachable_owner_flags s hr

/-- Witness for C4 (amended): evaluated on the reachable state reached by
deploying from address 0 and running `addAdmin(1)`. -/
theorem owner_admin_voter_membership_witness :
    sAdminAdded.admins sAdminAdded.owner = true ∧
    sAdminAdded.authorizedVoters sAdminAdded.owner = true :=
  owner_admin_voter_membership sAdminAdded
    (Reachable.step (Op.addAdmin 0 1) (initState 0) sAdminAdded
      [Event.adminAdded 1 0] (Reachable.init 0) (by rfl))

/-- Claim C5: for an authorized voter, a valid active proposal and a
valid option index, a `castVote` call at a time before `startTime` or
after `endTime` reverts with `VotingNotOpen` and changes no state, while
a call with `startTime ≤ now ≤ endTime` passes the time-window check
(it never produces the time-window error). -/
theorem castVote_time_window_enforcement
    (s : VState) (voter : Address) (pid optIdx encVote : Nat) (inputProof : List Nat)
    (proofOk : Bool)
    (hauth : s.authorizedVoters voter = true) (hpid : pid < s.proposalCount)
    (hact : (s.proposals pid).active = true)
    (_hopt : optIdx < (s.proposals pid).options.length) :
    (∀ now, now < (s.proposals pid).startTime ∨ (s.proposals pid).endTime < now →
       castVote s voter now pid optIdx encVote inputProof proofOk
           = .error .votingPeriodNotActive ∧
       (execTx (Op.castVote voter now pid optIdx encVote inputProof proofOk) s).1 = s) ∧
    (∀ now, (s.proposals pid).startTime ≤ now → now ≤ (s.proposals pid).endTime →
       castVote s voter now pid optIdx encVote inputProof proofOk
           ≠ .error .votingPeriodNotActive) := by
  constructor
  · intro now hw
    have heq := castVote_window_error s voter now pid optIdx encVote inputProof proofOk
      hauth hpid hact hw
    refine ⟨heq, ?_⟩
    have happ : applyOp (Op.castVote voter now pid optIdx encVote inputProof proofOk) s
        = .error .votingPeriodNotActive := heq
    simp [execTx, happ]
  · intro now hw1 hw2
    exact castVote_not_window_error s voter now pid optIdx encVote inputProof proofOk
      hauth hpid hact hw1 hw2

/-- Witness for C5: on the proposal open during `[0, 100]`, a vote at
time 101 reverts with the time-window error. -/
theorem castVote_time_window_enforcement_witness :
    castVote sProp 0 101 0 0 7 [1] true = .error .votingPeriodNotActive := by
  have h := castVote_time_window_enforcement sProp 0 0 0 7 [1] true
    (by rfl) (by decide) (by rfl) (by decide)
  exact (h.1 101 (Or.inr (by decide))).1

/-- Claim C6: `totalVotes` of every proposal is non-decreasing under
every transaction; a successful `castVote` on that proposal increases it
by exactly 1; every other successful operation (including `castVote`
on a different proposal) leaves it unchanged. -/
theorem totalVotes_monotone (op : Op) (s : VState) (pid : Nat) :
    (s.proposals pid).totalVotes ≤ ((execTx op s).1.proposals pid).totalVotes ∧
    (∀ s2 evs, applyOp op s = .ok (s2, evs) →
       ((∃ sender now optIdx encVote inputProof proofOk,
           op = Op.castVote sender now pid optIdx encVote inputProof proofOk) →
         (s2.proposals pid).totalVotes = (s.proposals pid).totalVotes + 1) ∧
       ((¬ ∃ sender now optIdx encVote inputProof proofOk,
           op = Op.castVote sender now pid optIdx encVote inputProof proofOk) →
         (s2.proposals pid).totalVotes = (s.proposals pid).totalVotes)) := by
  refine ⟨execTx_totalVotes_mono op s pid, ?_⟩
  intro s2 evs h
  constructor
  · rintro ⟨sender, now, oi, ev, ip, pk, rfl⟩
    exact step_totalVotes_castVote s s2 evs sender now pid oi ev ip pk h
  · intro hnot
    exact step_totalVotes_other op s s2 evs h pid hnot

/-- Witness for C6: the successful first ballot on proposal 0 raises its
`totalVotes` from 0 to exactly 1. -/
theorem totalVotes_monotone_witness :
    (sVoted.proposals 0).totalVotes = (sProp.proposals 0).totalVotes + 1 := by
  have h := totalVotes_monotone (Op.castVote 0 5 0 0 7 [1] true) sProp 0
  exact (h.2 sVoted [Event.voteCast 0 0 1] (by rfl)).1 ⟨0, 5, 0, 7, [1], true, rfl⟩

/-- Claim C7 (counterexample): after a first `authorizeVoter(1)` the
address is already authorized, yet the second identical call emits
another `VoterAuthorized` notification — a duplicate observable side
effect, contradicting the claim that the second call produces no
additional notification beyond the first. -/
theorem authorizeVoter_duplicate_notification_cex :
    sAuth1.authorizedVoters 1 = true ∧
    (execTx (Op.authorizeVoter 0 1) sAuth1).2.1 = [Event.voterAuthorized 1 0] :=
  ⟨rfl, rfl⟩

/-- Claim C7 (amended): calling `authorizeVoter` twice on the same
address (by authorized callers) is idempotent on state — the address
ends up in `authorizedVoters` and the second call leaves the state
exactly as after the first — but, the amendment forced by the
counterexample, each call (including the second) emits its own
`VoterAuthorized` notification. -/
theorem authorizeVoter_idempotent_state
    (s s1 s2 : VState) (evs1 evs2 : List Event) (sender sender2 voter : Address)
    (h1 : authorizeVoter s sender voter = .ok (s1, evs1))
    (h2 : authorizeVoter s1 sender2 voter = .ok (s2, evs2)) :
    s1.authorizedVoters voter = true ∧ s2 = s1 ∧
    evs2 = [Event.voterAuthorized voter sender2] := by
  obtain ⟨hadm1, hs1, he1⟩ := authorizeVoter_ok_inv s s1 evs1 sender voter h1
  obtain ⟨hadm2, hs2, he2⟩ := authorizeVoter_ok_inv s1 s2 evs2 sender2 voter h2
  subst hs1
  have hv : ({ s with authorizedVoters := updFn s.authorizedVoters voter true }
      : VState).authorizedVoters voter = true := updFn_self _ _ _
  refine ⟨hv, ?_, he2⟩
  rw [hs2, updFn_eq_of_already _ _ _ hv]

/-- Witness for C7 (amended): two consecutive `authorizeVoter(1)` calls
by the owner; the second leaves the state exactly equal to the first's
post-state. -/
theorem authorizeVoter_idempotent_state_witness :
    sAuth1.authorizedVoters 1 = true ∧ sAuth2 = sAuth1 := by
  have h := authorizeVoter_idempotent_state s0 sAuth1 sAuth2
    [Event.voterAuthorized 1 0] [Event.voterAuthorized 1 0] 0 0 1 (by rfl) (by rfl)
  exact ⟨h.1, h.2.1⟩

/-- Claim C8: once a proposal is deactivated, `setResults`,
`requestDecryption` and a second `deactivateProposal` on it all revert
(for every caller, time and argument — the `validProposal` guard needs
`active`), and under every further sequence of transactions the slot is
frozen (in particular its results can never be revealed, even after
`endTime`). -/
theorem deactivated_proposal_frozen
    (s : VState) (pid : Nat)
    (hpid : pid < s.proposalCount) (hina : (s.proposals pid).active = false) :
    (∀ sender now results, ∃ e, setResults s sender now pid results = .error e) ∧
    (∀ sender now, ∃ e, requestDecryption s sender now pid = .error e) ∧
    (∀ sender, ∃ e, deactivateProposal s sender pid = .error e) ∧
    (∀ ops, (execList s ops).proposals pid = s.proposals pid ∧
       pid < (execList s ops).proposalCount) := by
  refine ⟨?_, ?_, ?_, ?_⟩
  · intro sender now results
    exact setResults_fails_of_inactive s sender now pid results hina
  · intro sender now
    exact requestDecryption_fails_of_inactive s sender now pid hina
  · intro sender
    exact deactivateProposal_fails_of_inactive s sender pid hina
  · intro ops
    exact execList_frozen pid ops s hpid hina

/-- Witness for C8: after deactivating proposal 0, a sequence of
`setResults`, `requestDecryption` and `deactivateProposal` attempts
(all past `endTime`, by the admin) leaves the slot untouched — in
particular still unrevealed. -/
theorem deactivated_proposal_frozen_witness :
    (execList sDeact [Op.setResults 0 101 0 [3, 5], Op.requestDecryption 0 102 0,
        Op.deactivateProposal 0 0]).proposals 0 = sDeact.proposals 0 ∧
    0 < (execList sDeact [Op.setResults 0 101 0 [3, 5], Op.requestDecryption 0 102 0,
        Op.deactivateProposal 0 0]).proposalCount := by
  exact (deactivated_proposal_frozen sDeact 0 (by decide) (by rfl)).2.2.2
    [Op.setResults 0 101 0 [3, 5], Op.requestDecryption 0 102 0,
     Op.deactivateProposal 0 0]

/-- Claim C9: when the encryption backend is unavailable (so `init` fell
back to simulation), `isSimulationMode()` returns true, and every
`encrypt32` call in that state returns the simulated byte strings, which
have exactly 32 bytes of data and 32 bytes of proof. -/
theorem simulation_mode_flagging (envDev : Bool) (chainId : Nat)
    (backendEncrypt : Nat → List Nat × List Nat) (value nowMs : Nat) :
    (initClient envDev chainId false).isSimulationMode = true ∧
    encrypt32 (initClient envDev chainId false) backendEncrypt value nowMs
        = simulateEncryption value nowMs ∧
    (encrypt32 (initClient envDev chainId false) backendEncrypt value nowMs).1.length
        = 32 ∧
    (encrypt32 (initClient envDev chainId false) backendEncrypt value nowMs).2.length
        = 32 := by
  have hdev : (initClient envDev chainId false).isDevelopmentMode = true := by
    unfold initClient
    split
    · rfl
    · cases envDev
      · rfl
      · rfl
  have henc : encrypt32 (initClient envDev chainId false) backendEncrypt value nowMs
      = simulateEncryption value nowMs := by
    unfold encrypt32
    rw [if_pos (by rw [hdev]; rfl)]
  refine ⟨hdev, henc, ?_, ?_⟩
  · rw [henc]
    simp [simulateEncryption]
  · rw [henc]
    simp [simulateEncryption]

/-- Claim C10: `encryptVote(value)` range-checks the plaintext before
encrypting: any `value < 0` or `value > 255` throws and produces no
ciphertext, and any `0 ≤ value ≤ 255` proceeds to `encrypt32`. -/
theorem encryptVote_range_check (c : FHEVMClient)
    (backendEncrypt : Nat → List Nat × List Nat) (vote : Int) (nowMs : Nat) :
    (vote < 0 ∨ vote > 255 →
       encryptVote c backendEncrypt vote nowMs
           = .error "Vote must be between 0 and 255") ∧
    (0 ≤ vote → vote ≤ 255 →
       encryptVote c backendEncrypt vote nowMs
           = .ok (encrypt32 c backendEncrypt vote.toNat nowMs)) := by
  constructor
  · intro h
    unfold encryptVote
    rw [if_pos h]
  · intro h1 h2
    unfold encryptVote
    rw [if_neg (by rintro (h | h) <;> omega)]

/-- Witness for C10: on the simulation-mode client, `encryptVote(-1)`
throws the range error and `encryptVote(255)` returns the encryption. -/
theorem encryptVote_range_check_witness :
    encryptVote (initClient true 1 false) (fun _ => ([], [])) (-1) 0
        = .error "Vote must be between 0 and 255" ∧
    encryptVote (initClient true 1 false) (fun _ => ([], [])) 255 0
        = .ok (encrypt32 (initClient true 1 false) (fun _ => ([], []))
            (Int.toNat 255) 0) := by
  have hA := encryptVote_range_check (initClient true 1 false) (fun _ => ([], [])) (-1) 0
  have hB := encryptVote_range_check (initClient true 1 false) (fun _ => ([], [])) 255 0
  exact ⟨hA.1 (Or.inl (by decide)), hB.2 (by decide) (by decide)⟩

end FHEVoting
